import Mathlib

/-!
Verification development for the prometheus-puppetdb target generator.

The Go program queries PuppetDB for node records, maps each (node, exporter)
pair to a Prometheus static target config, renders the list as YAML and writes
it to a sink (stdout, file, configmap, external-services).  The definitions
below are a shallow embedding of `main.go` and of the output `Setup` switch,
together with the behaviour of the external library functions the code relies
on (`net/url.Parse`, `encoding/json`, `gopkg.in/yaml.v1`) restricted to the
features this program exercises.
-/

namespace PromPdb

/-- Character constant for the double quote, kept symbolic so JSON text can be
built without embedding raw quote characters in string literals. -/
def quoteC : Char := Char.ofNat 34

/-- Character constant for the backslash. -/
def backslashC : Char := Char.ofNat 92

/-- Character constant for the opening curly brace. -/
def lbraceC : Char := Char.ofNat 123

/-- Character constant for the closing curly brace. -/
def rbraceC : Char := Char.ofNat 125

/-! ## Model of Go `net/url.Parse`

`getTargets` (main.go line 136) and `init` (line 172) call `url.Parse`.  The
model below embeds the subset of `net/url.Parse` this program exercises:
scheme recognition (`getScheme`), the control-character check, fragment and
query stripping, authority/host extraction with port validation, opaque URLs,
and the colon-in-first-path-segment error.  Percent-decoding of paths and
bracketed IPv6 hosts are not modelled (no claim exercises them). -/

/-- Result of parsing a URL: the three fields `getTargets` and `init` read
(`url.Scheme`, `url.Host`, `url.Path`). -/
structure GoURL where
  scheme : String
  host : String
  path : String
deriving Repr, DecidableEq

/-- Go `net/url`: a control byte (below 0x20, or 0x7f) anywhere in the URL is
rejected by `Parse`. -/
def containsCTL (s : String) : Bool :=
  s.data.any (fun c => c.toNat < 32 || c.toNat == 127)

/-- Scheme characters: ASCII letters may appear anywhere in a scheme. -/
def isSchemeAlpha (c : Char) : Bool :=
  ('a' ≤ c && c ≤ 'z') || ('A' ≤ c && c ≤ 'Z')

/-- Scheme characters allowed after the first position. -/
def isSchemeExtra (c : Char) : Bool :=
  c.isDigit || c == '+' || c == '-' || c == '.'

/-- Model of Go `getscheme`: scan for `scheme:`.  Returns `some (scheme, rest)`
when a scheme was cut off, `none` when the input has no scheme (the whole
input is then the rest), and an error for a leading colon. -/
def getSchemeAux : List Char → List Char → Except String (Option (List Char × List Char))
  | _, [] => .ok none
  | acc, c :: rest =>
    if isSchemeAlpha c then getSchemeAux (acc ++ [c]) rest
    else if isSchemeExtra c then
      if acc.isEmpty then .ok none else getSchemeAux (acc ++ [c]) rest
    else if c = ':' then
      if acc.isEmpty then .error "missing protocol scheme"
      else .ok (some (acc, rest))
    else .ok none

/-- Split a character list at the first occurrence of `sep`: the part before,
and `some` tail after the separator when it occurs. -/
def splitOnFirst (sep : Char) : List Char → List Char × Option (List Char)
  | [] => ([], none)
  | c :: rest =>
    if c = sep then ([], some rest)
    else
      let (a, b) := splitOnFirst sep rest
      (c :: a, b)

/-- Split a character list at the last occurrence of `sep`: `some` (part
before, part after) when the separator occurs at all. -/
def splitOnLast (sep : Char) (l : List Char) : Option (List Char × List Char) :=
  match splitOnFirst sep l.reverse with
  | (_, none) => none
  | (afterRev, some beforeRev) => some (beforeRev.reverse, afterRev.reverse)

/-- Split an authority section from the path that follows it: the part before
the first slash, and the remainder starting at that slash. -/
def splitAuthority : List Char → List Char × List Char
  | [] => ([], [])
  | c :: rest =>
    if c = '/' then ([], c :: rest)
    else
      let (a, b) := splitAuthority rest
      (c :: a, b)

/-- Model of Go `validOptionalPort` applied to the text after the last colon:
the port digits may be empty but must all be ASCII digits. -/
def validPortDigits (l : List Char) : Bool := l.all Char.isDigit

/-- Model of Go `parseHost` for non-bracketed hosts: when the host contains a
colon, everything after the last colon must be (possibly empty) digits. -/
def parseHost (host : List Char) : Except String (List Char) :=
  match splitOnLast ':' host with
  | none => .ok host
  | some (_, after) =>
    if validPortDigits after then .ok host
    else .error "invalid port"

/-- Continuation of `url.Parse` once the scheme has been cut off and the
query stripped: authority form, opaque form, or rootless/relative path. -/
def parseAfterScheme (scheme : String) (rest : List Char) : Except String GoURL :=
  if rest.take 2 = ['/', '/'] ∧ (scheme ≠ "" ∨ rest.take 3 ≠ ['/', '/', '/']) then
    let after := rest.drop 2
    let (authority, pathPart) := splitAuthority after
    let hostPart :=
      match splitOnLast '@' authority with
      | some (_, h) => h
      | none => authority
    match parseHost hostPart with
    | .error e => .error e
    | .ok h => .ok ⟨scheme, String.mk h, String.mk pathPart⟩
  else if rest.take 1 ≠ ['/'] ∧ scheme ≠ "" then
    .ok ⟨scheme, "", ""⟩
  else if rest.take 1 ≠ ['/'] ∧ (splitAuthority rest).1.contains ':' then
    .error "first path segment in URL cannot contain colon"
  else
    .ok ⟨scheme, "", String.mk rest⟩

/-- Model of Go `net/url.Parse` restricted to the fields this program reads:
control-character check, fragment split, scheme extraction (lower-cased),
query split, then authority/opaque/path handling. -/
def urlParse (rawurl : String) : Except String GoURL :=
  if containsCTL rawurl then .error "net/url: invalid control character in URL"
  else
    let (beforeFrag, _) := splitOnFirst (Char.ofNat 35) rawurl.data
    match getSchemeAux [] beforeFrag with
    | .error e => .error e
    | .ok schemeCut =>
      let scheme :=
        match schemeCut with
        | some (s, _) => String.mk (s.map Char.toLower)
        | none => ""
      let rest0 :=
        match schemeCut with
        | some (_, r) => r
        | none => beforeFrag
      let (rest, _) := splitOnFirst '?' rest0
      parseAfterScheme scheme rest

/-! ## Data model (main.go lines 48..56)

Go maps are embedded as association lists; iteration order over a Go map is
unspecified, so the list order stands for one arbitrary iteration order. -/

/-- Node record decoded from the PuppetDB response (main.go `Node`):
`certname` from JSON key `certname`, `exporters` from JSON key `value`. -/
structure Node where
  certname : String
  exporters : List (String × String)
deriving Repr, DecidableEq

/-- Prometheus static target config (main.go `StaticConfig`): YAML keys
`targets` and `labels`. -/
structure StaticConfig where
  targets : List String
  labels : List (String × String)
deriving Repr, DecidableEq

/-! ## Target Mapper (main.go `getTargets`, lines 134..152) -/

/-- Static config built for one (node, exporter) pair, main.go lines 140..149:
the single target is `url.Host`, and the labels are certname, host,
metrics_path, job and scheme. -/
def buildStaticConfig (certname jobName : String) (u : GoURL) : StaticConfig :=
  { targets := [u.host]
  , labels :=
      [ ("certname", certname)
      , ("host", certname)
      , ("metrics_path", u.path)
      , ("job", jobName)
      , ("scheme", u.scheme) ] }

/-- Inner loop of `getTargets` over one node's exporter map (main.go lines
135..151): parse each exporter URL, abort on the first parse error. -/
def mapExporters (certname : String) : List (String × String) → Except String (List StaticConfig)
  | [] => .ok []
  | (jobName, target) :: rest =>
    match urlParse target with
    | .error e => .error e
    | .ok u =>
      match mapExporters certname rest with
      | .error e => .error e
      | .ok cs => .ok (buildStaticConfig certname jobName u :: cs)

/-- Outer loop of `getTargets` over the node list (main.go lines 134..152). -/
def mapNodes : List Node → Except String (List StaticConfig)
  | [] => .ok []
  | n :: rest =>
    match mapExporters n.certname n.exporters with
    | .error e => .error e
    | .ok cs =>
      match mapNodes rest with
      | .error e => .error e
      | .ok cs2 => .ok (cs ++ cs2)

/-! ## Serializer (main.go line 153, `yaml.Marshal` from gopkg.in/yaml.v1)

The model renders the document shape the library produces for
`[]StaticConfig`; exact scalar quoting of unusual values is not modelled (no
claim compares non-empty renderings to literal bytes).  The empty slice
renders as the empty flow sequence `[]` followed by a newline, and marshaling
of this slice-of-structs type never fails. -/

/-- YAML rendering of one label entry. -/
def yamlRenderLabel (kv : String × String) : String :=
  "    " ++ kv.1 ++ ": " ++ kv.2 ++ "\n"

/-- YAML rendering of one static config as a block-sequence item. -/
def yamlRenderStaticConfig (c : StaticConfig) : String :=
  "- targets:\n"
    ++ String.join (c.targets.map (fun t => "  - " ++ t ++ "\n"))
    ++ "  labels:\n"
    ++ String.join (c.labels.map yamlRenderLabel)

/-- Document produced by `yaml.Marshal` for the empty config slice: the empty
flow sequence, a well-formed empty YAML document. -/
def yamlEmptySeqDoc : String := "[]\n"

/-- Model of `yaml.Marshal` on a `[]StaticConfig` value. -/
def yamlMarshalStaticConfigs (cs : List StaticConfig) : Except String String :=
  match cs with
  | [] => .ok yamlEmptySeqDoc
  | _ => .ok (String.join (cs.map yamlRenderStaticConfig))

/-- Pure core of `getTargets` (main.go lines 125..158) once the node list has
been fetched: map all nodes, then marshal; an error anywhere yields an error
and no rendered bytes. -/
def getTargetsRender (nodes : List Node) : Except String String :=
  match mapNodes nodes with
  | .error e => .error e
  | .ok configs => yamlMarshalStaticConfigs configs

/-! ## JSON text model

`getNodes` builds its request body by raw string formatting (main.go line 103)
and decodes the response with `encoding/json` (line 121).  The JSON reader
below follows the JSON grammar as `encoding/json` accepts it for the types
this program decodes into. -/

/-- Hexadecimal digit value, for JSON `u` escapes. -/
def hexVal (c : Char) : Option Nat :=
  if '0' ≤ c && c ≤ '9' then some (c.toNat - 48)
  else if 'a' ≤ c && c ≤ 'f' then some (c.toNat - 87)
  else if 'A' ≤ c && c ≤ 'F' then some (c.toNat - 55)
  else none

/-- Single-character JSON escapes. -/
def unescapeChar (c : Char) : Option Char :=
  if c = quoteC then some quoteC
  else if c = backslashC then some backslashC
  else if c = '/' then some '/'
  else if c = 'b' then some (Char.ofNat 8)
  else if c = 'f' then some (Char.ofNat 12)
  else if c = 'n' then some (Char.ofNat 10)
  else if c = 'r' then some (Char.ofNat 13)
  else if c = 't' then some (Char.ofNat 9)
  else none

/-- Read the body of a JSON string literal after its opening quote, up to the
closing quote: returns the decoded characters and the remaining input.
Unescaped control characters are rejected. -/
def parseStringBody : List Char → Option (List Char × List Char)
  | [] => none
  | c :: cs =>
    if c = quoteC then some ([], cs)
    else if c = backslashC then
      match cs with
      | [] => none
      | e :: cs2 =>
        if e = 'u' then
          match cs2 with
          | h1 :: h2 :: h3 :: h4 :: cs3 =>
            match hexVal h1, hexVal h2, hexVal h3, hexVal h4 with
            | some a, some b, some c4, some d =>
              match parseStringBody cs3 with
              | some (s, r) => some (Char.ofNat (a * 4096 + b * 256 + c4 * 16 + d) :: s, r)
              | none => none
            | _, _, _, _ => none
          | _ => none
        else
          match unescapeChar e with
          | some ec =>
            match parseStringBody cs2 with
            | some (s, r) => some (ec :: s, r)
            | none => none
          | none => none
    else if c.toNat < 32 then none
    else
      match parseStringBody cs with
      | some (s, r) => some (c :: s, r)
      | none => none

/-- JSON whitespace characters. -/
def jsonWs (c : Char) : Bool :=
  c == ' ' || c == Char.ofNat 9 || c == Char.ofNat 10 || c == Char.ofNat 13

/-- Drop leading JSON whitespace. -/
def skipWs : List Char → List Char
  | [] => []
  | c :: cs => if jsonWs c then skipWs cs else c :: cs

/-- Skip whitespace, then require the next character to be `c`. -/
def expectChar (c : Char) (l : List Char) : Option (List Char) :=
  match skipWs l with
  | c2 :: r => if c2 = c then some r else none
  | [] => none

/-- Read the request body the Inventory Client sends, as the JSON document
with the single member `query`: returns the decoded query string when the
body is that well-formed document. -/
def decodeQueryBodyChars (l : List Char) : Option String := do
  let r1 ← expectChar lbraceC l
  let r2 ← expectChar quoteC r1
  let (key, r3) ← parseStringBody r2
  if key = "query".data then do
    let r4 ← expectChar ':' r3
    let r5 ← expectChar quoteC r4
    let (val, r6) ← parseStringBody r5
    let r7 ← expectChar rbraceC r6
    if skipWs r7 = [] then some (String.mk val) else none
  else none

/-- String form of `decodeQueryBodyChars`. -/
def decodeQueryBody (s : String) : Option String := decodeQueryBodyChars s.data

/-! ## Inventory Client request (main.go `getNodes`, lines 102..109) -/

/-- HTTP request as `getNodes` constructs it: method, URL, body and headers. -/
structure HttpRequest where
  method : String
  url : String
  body : String
  headers : List (String × String)
deriving Repr, DecidableEq

/-- Characters of the body before the query text: the Go format string
`\x7b"query":"` of main.go line 103. -/
def queryBodyOpen : List Char :=
  [lbraceC, quoteC] ++ "query".data ++ [quoteC, ':', quoteC]

/-- Characters of the body after the query text: `"\x7d`. -/
def queryBodyClose : List Char := [quoteC, rbraceC]

/-- Request built by `getNodes` (main.go lines 102..109): one POST to
`puppetdb + "/pdb/query/v4"`, body produced by raw string formatting of the
query into `\x7b"query":"%s"\x7d`, one Content-Type header. -/
def mkGetNodesRequest (puppetdb query : String) : HttpRequest :=
  { method := "POST"
  , url := puppetdb ++ "/pdb/query/v4"
  , body := String.mk (queryBodyOpen ++ query.data ++ queryBodyClose)
  , headers := [("Content-Type", "application/json")] }

/-! ## JSON values and response decoding (main.go lines 111..122) -/

/-- JSON values, as `encoding/json` reads them. -/
inductive JsonValue where
  | str : String → JsonValue
  | num : String → JsonValue
  | bool : Bool → JsonValue
  | null : JsonValue
  | arr : List JsonValue → JsonValue
  | obj : List (String × JsonValue) → JsonValue
deriving Repr

/-- Characters that may appear in a JSON number token. -/
def isNumChar (c : Char) : Bool :=
  c.isDigit || c == '-' || c == '+' || c == '.' || c == 'e' || c == 'E'

/-- Exponent part of a JSON number: empty, or `e`/`E`, an optional sign and
one or more digits, ending the token. -/
def numExpPart : List Char → Bool
  | [] => true
  | c :: r =>
    if c = 'e' ∨ c = 'E' then
      let r2 :=
        match r with
        | s :: r3 => if s = '+' ∨ s = '-' then r3 else s :: r3
        | [] => []
      let (ds, rest) := r2.span Char.isDigit
      !ds.isEmpty && rest.isEmpty
    else false

/-- Fraction part of a JSON number: empty, or a dot and one or more digits,
followed by the exponent part. -/
def numFracPart : List Char → Bool
  | [] => true
  | c :: r =>
    if c = '.' then
      let (ds, rest) := r.span Char.isDigit
      !ds.isEmpty && numExpPart rest
    else numExpPart (c :: r)

/-- The JSON number grammar, as `encoding/json` enforces it: an optional
minus sign, then either a single zero or a nonzero digit with more digits,
then fraction and exponent parts. -/
def validJsonNumber (l : List Char) : Bool :=
  let l1 :=
    match l with
    | c :: r => if c = '-' then r else c :: r
    | [] => []
  match l1 with
  | [] => false
  | c :: r =>
    if c = '0' then numFracPart r
    else if c.isDigit then numFracPart (r.span Char.isDigit).2
    else false

mutual

/-- Fuel-bounded recursive-descent reader for one JSON value. -/
def parseJsonValue : Nat → List Char → Option (JsonValue × List Char)
  | 0, _ => none
  | Nat.succ fuel, l =>
    match skipWs l with
    | [] => none
    | c :: r =>
      if c = quoteC then
        match parseStringBody r with
        | some (s, rest) => some (.str (String.mk s), rest)
        | none => none
      else if c = '[' then
        match skipWs r with
        | c2 :: r2 =>
          if c2 = ']' then some (.arr [], r2)
          else
            match parseJsonItems fuel (c2 :: r2) with
            | some (vs, rest) => some (.arr vs, rest)
            | none => none
        | [] => none
      else if c = lbraceC then
        match skipWs r with
        | c2 :: r2 =>
          if c2 = rbraceC then some (.obj [], r2)
          else
            match parseJsonMembers fuel (c2 :: r2) with
            | some (fs, rest) => some (.obj fs, rest)
            | none => none
        | [] => none
      else if c.isDigit || c = '-' then
        let (tok, rest) := (c :: r).span isNumChar
        if validJsonNumber tok then some (.num (String.mk tok), rest) else none
      else if (c :: r).take 4 = "true".data then some (.bool true, (c :: r).drop 4)
      else if (c :: r).take 5 = "false".data then some (.bool false, (c :: r).drop 5)
      else if (c :: r).take 4 = "null".data then some (.null, (c :: r).drop 4)
      else none

/-- Items of a non-empty JSON array, up to the closing bracket. -/
def parseJsonItems : Nat → List Char → Option (List JsonValue × List Char)
  | 0, _ => none
  | Nat.succ fuel, l =>
    match parseJsonValue fuel l with
    | none => none
    | some (v, rest) =>
      match skipWs rest with
      | c :: r =>
        if c = ',' then
          match parseJsonItems fuel r with
          | some (vs, rest2) => some (v :: vs, rest2)
          | none => none
        else if c = ']' then some ([v], r)
        else none
      | [] => none

/-- Members of a non-empty JSON object, up to the closing brace. -/
def parseJsonMembers : Nat → List Char → Option (List (String × JsonValue) × List Char)
  | 0, _ => none
  | Nat.succ fuel, l =>
    match skipWs l with
    | c :: r =>
      if c = quoteC then
        match parseStringBody r with
        | some (k, rest) =>
          match skipWs rest with
          | c2 :: r2 =>
            if c2 = ':' then
              match parseJsonValue fuel r2 with
              | some (v, rest2) =>
                match skipWs rest2 with
                | c3 :: r3 =>
                  if c3 = ',' then
                    match parseJsonMembers fuel r3 with
                    | some (fs, rest3) => some ((String.mk k, v) :: fs, rest3)
                    | none => none
                  else if c3 = rbraceC then some ([(String.mk k, v)], r3)
                  else none
                | [] => none
              | none => none
            else none
          | [] => none
        | none => none
      else none
    | [] => none

end

/-- Read a whole input as one JSON value with nothing but whitespace after
it.  The fuel is amply larger than any possible recursion depth. -/
def jsonParse (s : String) : Option JsonValue :=
  match parseJsonValue (2 * s.length + 8) s.data with
  | some (v, rest) => if skipWs rest = [] then some v else none
  | none => none

/-- Decode a JSON object's members as a `map[string]string` value the way
`encoding/json` does: every member value must be a string (a `null` stores
the zero string). -/
def jsonFieldsToStringMap : List (String × JsonValue) → Option (List (String × String))
  | [] => some []
  | (k, v) :: rest =>
    match v with
    | .str s => (jsonFieldsToStringMap rest).map (fun m => (k, s) :: m)
    | .null => (jsonFieldsToStringMap rest).map (fun m => (k, "") :: m)
    | _ => none

/-- Apply one JSON object member to a `Node` being decoded: the `certname`
member must be a string, the `value` member an object of strings; members
with other keys are ignored, and `null` leaves the field untouched. -/
def applyNodeField (n : Node) : String × JsonValue → Option Node
  | ("certname", .str s) => some { n with certname := s }
  | ("certname", .null) => some n
  | ("certname", _) => none
  | ("value", .obj fs) =>
    match jsonFieldsToStringMap fs with
    | some m => some { n with exporters := m }
    | none => none
  | ("value", .null) => some n
  | ("value", _) => none
  | _ => some n

/-- Decode one JSON value as a `Node` (zero value for missing members, later
duplicate members override earlier ones, `null` decodes as the zero node). -/
def jsonToNode : JsonValue → Option Node
  | .obj fields => fields.foldlM applyNodeField { certname := "", exporters := [] }
  | .null => some { certname := "", exporters := [] }
  | _ => none

/-- Model of `json.Unmarshal(body, &nodes)` for `nodes : []Node` (main.go
line 121): the body must read as a JSON array whose items decode as nodes,
or as the JSON literal `null`, which `encoding/json` stores into the slice
as nil with no error. -/
def decodeNodes (body : String) : Option (List Node) :=
  match jsonParse body with
  | some (.arr vs) => vs.mapM jsonToNode
  | some .null => some []
  | _ => none

/-- HTTP response as `getNodes` receives it: a status code and a body. -/
structure HttpResponse where
  statusCode : Nat
  body : String
deriving Repr, DecidableEq

/-- Response handling of `getNodes` (main.go lines 111..122): the body is
read and unmarshaled into the node slice; the status code is never
inspected. -/
def getNodesFromResponse (resp : HttpResponse) : Except String (List Node) :=
  match decodeNodes resp.body with
  | some ns => .ok ns
  | none => .error "json unmarshal error"

/-! ## Output sink selection (outputs package, `Setup`) -/

/-- Options passed to `Setup` (outputs package `Options` struct). -/
structure Options where
  name : String
  filePath : String
  configMapName : String
  nameSpace : String
  objectLabels : List (String × String)
deriving Repr, DecidableEq

/-- Sinks `Setup` can return, one per output implementation. -/
inductive Output where
  | outputStdout : Output
  | outputFile : String → Output
  | outputK8SConfigMap : String → String → Output
  | outputK8SExternalService : String → List (String × String) → Output
deriving Repr, DecidableEq

/-- Modelled from the spec: `setupOutputFile` is not under src (only its
caller `Setup` is); per the spec the file sink writes the rendered document
to the configured path, so its constructor returns the file sink for that
path. -/
def setupOutputFile (filePath : String) : Except String Output :=
  .ok (.outputFile filePath)

/-- Modelled from the spec: `setupOutputK8SConfigMap` is not under src; per
the spec the configmap sink targets a named object in a namespace. -/
def setupOutputK8SConfigMap (nameSpace configMapName : String) : Except String Output :=
  .ok (.outputK8SConfigMap nameSpace configMapName)

/-- Modelled from the spec: `setupOutputK8SExternalService` is not under src;
per the spec the external-services sink is keyed by a label selector within a
namespace. -/
def setupOutputK8SExternalService (nameSpace : String) (objectLabels : List (String × String)) :
    Except String Output :=
  .ok (.outputK8SExternalService nameSpace objectLabels)

/-- Sink selection switch (outputs package `Setup`): the four known sink
names select their sink, the empty name and unknown names are errors. -/
def Setup (options : Options) : Except String Output :=
  if options.name = "stdout" then .ok .outputStdout
  else if options.name = "file" then setupOutputFile options.filePath
  else if options.name = "configmap" then
    setupOutputK8SConfigMap options.nameSpace options.configMapName
  else if options.name = "external-services" then
    setupOutputK8SExternalService options.nameSpace options.objectLabels
  else if options.name = "" then .error "no output defined"
  else .error ("unknown output: " ++ options.name)

/-- Sink names `Setup` accepts. -/
def knownOutputs : List String := ["stdout", "file", "configmap", "external-services"]

/-! ## Startup validation (main.go `init`, lines 164..209) -/

/-- Scheme validation of `init` (main.go lines 172..179): parse the
configured PuppetDB URL and require scheme `http` or `https`; both a parse
failure and any other scheme are fatal before any HTTP client exists, so no
network call can have been made. -/
def checkPuppetdbScheme (rawurl : String) : Except String GoURL :=
  match urlParse rawurl with
  | .error e => .error ("failed to parse PuppetDB URL: " ++ e)
  | .ok u =>
    if u.scheme ≠ "http" ∧ u.scheme ≠ "https" then
      .error (u.scheme ++ " is not a valid http scheme")
    else .ok u

/-! ## File sink cycle (main.go `main`, lines 219..235) -/

/-- Flat file-system state: directories known to exist and file contents. -/
structure FileSystem where
  dirs : List String
  files : List (String × String)
deriving Repr, DecidableEq

/-- Model of `os.MkdirAll` on the state: the directory exists afterwards. -/
def mkdirAll (d : String) (fs : FileSystem) : FileSystem :=
  { fs with dirs := d :: fs.dirs }

/-- Model of `ioutil.WriteFile`: the destination holds exactly the given
bytes afterwards. -/
def writeFile (p content : String) (fs : FileSystem) : FileSystem :=
  { fs with files := (p, content) :: fs.files }

/-- Content of a file in the state, newest write first. -/
def readFile (p : String) (fs : FileSystem) : Option String :=
  (fs.files.find? (fun kv => kv.1 == p)).map (fun kv => kv.2)

/-- Model of Go `filepath.Dir` for slash-separated paths that need no
cleaning: everything before the last slash, `"."` when there is no slash and
`"/"` for a file directly under the root. -/
def filepathDir (p : String) : String :=
  match splitOnLast '/' p.data with
  | none => "."
  | some ([], _) => "/"
  | some (before, _) => String.mk before

/-- One pass of the file-sink branch (main.go lines 219..231): ensure the
parent directory of the target file exists, build the targets, and on success
overwrite the file with the rendered bytes; a build error produces no write. -/
def runOneFileCycle (file : String) (nodes : List Node) (fs : FileSystem) :
    Except String FileSystem :=
  let fs1 := mkdirAll (filepathDir file) fs
  match getTargetsRender nodes with
  | .error e => .error e
  | .ok c => .ok (writeFile file c fs1)

/-- Decidable equality for `Except`, so concrete runs of the embedded
functions can be checked by `decide`. -/
instance {ε α : Type} [DecidableEq ε] [DecidableEq α] : DecidableEq (Except ε α) := fun a b =>
  match a, b with
  | .ok x, .ok y => if h : x = y then .isTrue (by simp [h]) else .isFalse (by simp [h])
  | .error x, .error y => if h : x = y then .isTrue (by simp [h]) else .isFalse (by simp [h])
  | .ok _, .error _ => .isFalse (by simp)
  | .error _, .ok _ => .isFalse (by simp)

/-! ## Mapper lemmas -/

/-- A successful inner mapping pass yields one config per exporter entry. -/
theorem mapExporters_length (cn : String) (exps : List (String × String)) :
    ∀ cs, mapExporters cn exps = .ok cs → cs.length = exps.length := by
  induction exps with
  | nil => intro cs h; simp [mapExporters] at h; simp [← h]
  | cons p rest ih =>
    intro cs h
    obtain ⟨j, t⟩ := p
    simp only [mapExporters] at h
    cases hu : urlParse t <;> rw [hu] at h
    · simp at h
    · cases hr : mapExporters cn rest <;> rw [hr] at h
      · simp at h
      · simp only [Except.ok.injEq] at h
        subst h
        simp [ih _ hr]

/-- Every config a successful inner pass emits is built from a successfully
parsed URL, with the parsed host as its single target. -/
theorem mapExporters_shape (cn : String) (exps : List (String × String)) :
    ∀ cs, mapExporters cn exps = .ok cs →
      ∀ c ∈ cs, ∃ t u, urlParse t = .ok u ∧ c.targets = [u.host] := by
  induction exps with
  | nil => intro cs h; simp [mapExporters] at h; subst h; simp
  | cons p rest ih =>
    intro cs h
    obtain ⟨j, t⟩ := p
    simp only [mapExporters] at h
    cases hu : urlParse t with
    | error e => rw [hu] at h; simp at h
    | ok u =>
      rw [hu] at h
      cases hr : mapExporters cn rest with
      | error e => rw [hr] at h; simp at h
      | ok cs2 =>
        rw [hr] at h
        simp only [Except.ok.injEq] at h
        subst h
        intro c hc
        rcases List.mem_cons.mp hc with hc | hc
        · exact ⟨t, u, hu, by simp [hc, buildStaticConfig]⟩
        · exact ih _ hr c hc

/-- A successful inner pass implies every exporter URL of the node parses. -/
theorem mapExporters_parses (cn : String) (exps : List (String × String)) :
    ∀ cs, mapExporters cn exps = .ok cs →
      ∀ p ∈ exps, ∃ u, urlParse p.2 = .ok u := by
  induction exps with
  | nil => intro cs _ p hp; simp at hp
  | cons q rest ih =>
    intro cs h p hp
    obtain ⟨j, t⟩ := q
    simp only [mapExporters] at h
    cases hu : urlParse t with
    | error e => rw [hu] at h; simp at h
    | ok u =>
      rw [hu] at h
      cases hr : mapExporters cn rest with
      | error e => rw [hr] at h; simp at h
      | ok cs2 =>
        rcases List.mem_cons.mp hp with hp | hp
        · subst hp; exact ⟨u, hu⟩
        · exact ih _ hr p hp

/-- A successful outer pass yields one config per (node, exporter) pair. -/
theorem mapNodes_length (nodes : List Node) :
    ∀ cs, mapNodes nodes = .ok cs →
      cs.length = (nodes.map (fun n => n.exporters.length)).sum := by
  induction nodes with
  | nil => intro cs h; simp [mapNodes] at h; simp [← h]
  | cons n rest ih =>
    intro cs h
    simp only [mapNodes] at h
    cases he : mapExporters n.certname n.exporters <;> rw [he] at h
    · simp at h
    · cases hr : mapNodes rest <;> rw [hr] at h
      · simp at h
      · simp only [Except.ok.injEq] at h
        subst h
        simp [mapExporters_length _ _ _ he, ih _ hr]

/-- Every config a successful outer pass emits is built from a successfully
parsed URL, with the parsed host as its single target. -/
theorem mapNodes_shape (nodes : List Node) :
    ∀ cs, mapNodes nodes = .ok cs →
      ∀ c ∈ cs, ∃ t u, urlParse t = .ok u ∧ c.targets = [u.host] := by
  induction nodes with
  | nil => intro cs h; simp [mapNodes] at h; subst h; simp
  | cons n rest ih =>
    intro cs h
    simp only [mapNodes] at h
    cases he : mapExporters n.certname n.exporters <;> rw [he] at h
    · simp at h
    · cases hr : mapNodes rest <;> rw [hr] at h
      · simp at h
      · simp only [Except.ok.injEq] at h
        subst h
        intro c hc
        rcases List.mem_append.mp hc with hc | hc
        · exact mapExporters_shape _ _ _ he c hc
        · exact ih _ hr c hc

/-- A successful outer pass implies every exporter URL of every node parses. -/
theorem mapNodes_parses (nodes : List Node) :
    ∀ cs, mapNodes nodes = .ok cs →
      ∀ n ∈ nodes, ∀ p ∈ n.exporters, ∃ u, urlParse p.2 = .ok u := by
  induction nodes with
  | nil => intro cs _ n hn; simp at hn
  | cons m rest ih =>
    intro cs h n hn
    simp only [mapNodes] at h
    cases he : mapExporters m.certname m.exporters <;> rw [he] at h
    · simp at h
    · cases hr : mapNodes rest <;> rw [hr] at h
      · simp at h
      · rcases List.mem_cons.mp hn with hn | hn
        · subst hn; exact mapExporters_parses _ _ _ he
        · exact ih _ hr n hn

/-- The configs a successful inner pass emits correspond pairwise, in order,
to the node's exporter entries: each config is built from its own pair's
parsed URL, with that URL's host as its single target. -/
theorem mapExporters_forall₂ (cn : String) (exps : List (String × String)) :
    ∀ cs, mapExporters cn exps = .ok cs →
      List.Forall₂ (fun (e : String × String) (c : StaticConfig) =>
        ∃ u, urlParse e.2 = .ok u ∧ c.targets = [u.host] ∧ c = buildStaticConfig cn e.1 u)
        exps cs := by
  induction exps with
  | nil => intro cs h; simp [mapExporters] at h; subst h; exact List.Forall₂.nil
  | cons p rest ih =>
    intro cs h
    obtain ⟨j, t⟩ := p
    simp only [mapExporters] at h
    cases hu : urlParse t with
    | error e => rw [hu] at h; simp at h
    | ok u =>
      rw [hu] at h
      cases hr : mapExporters cn rest with
      | error e => rw [hr] at h; simp at h
      | ok cs2 =>
        rw [hr] at h
        simp only [Except.ok.injEq] at h
        subst h
        exact List.Forall₂.cons ⟨u, hu, rfl, rfl⟩ (ih _ hr)

/-- A JSON string literal consisting of characters that need no escaping
reads back verbatim up to its closing quote. -/
theorem parseStringBody_plain (cs rest : List Char)
    (h : ∀ c ∈ cs, c ≠ quoteC ∧ c ≠ backslashC ∧ 32 ≤ c.toNat) :
    parseStringBody (cs ++ quoteC :: rest) = some (cs, rest) := by
  induction cs with
  | nil => rw [List.nil_append, parseStringBody.eq_def]; simp
  | cons c cs ih =>
    obtain ⟨h1, h2, h3⟩ := h c (by simp)
    have hih := ih (fun x hx => h x (by simp [hx]))
    rw [List.cons_append, parseStringBody.eq_def]
    simp [h1, h2, Nat.not_lt.mpr h3, hih]

/-- The raw-formatted request body reads back as the JSON document with the
single member `query` exactly when the query text needs no JSON escaping. -/
theorem decodeQueryBody_mkBody (q : String)
    (h : ∀ c ∈ q.data, c ≠ quoteC ∧ c ≠ backslashC ∧ 32 ≤ c.toNat) :
    decodeQueryBodyChars (queryBodyOpen ++ q.data ++ queryBodyClose) = some q := by
  have wlb : jsonWs lbraceC = false := by decide
  have wq : jsonWs quoteC = false := by decide
  have wco : jsonWs ':' = false := by decide
  have wrb : jsonWs rbraceC = false := by decide
  have hkey : parseStringBody
      ('q' :: 'u' :: 'e' :: 'r' :: 'y' :: quoteC :: ':' :: quoteC ::
        (q.data ++ [quoteC, rbraceC])) =
      some (['q', 'u', 'e', 'r', 'y'], ':' :: quoteC :: (q.data ++ [quoteC, rbraceC])) :=
    parseStringBody_plain ['q', 'u', 'e', 'r', 'y'] _ (by decide)
  have hval : parseStringBody (q.data ++ [quoteC, rbraceC]) = some (q.data, [rbraceC]) :=
    parseStringBody_plain _ _ h
  simp [decodeQueryBodyChars, queryBodyOpen, queryBodyClose, List.append_assoc,
    expectChar, skipWs, wlb, wq, wco, wrb, hkey, hval]

/-! ## Claim theorems -/

/-- C4, counterexample: for the query text `a"b` (a double quote inside), the
body `getNodes` builds by raw formatting is not a well-formed JSON document
at all, so it does not encode that query string under the key `query`. -/
theorem querybody_malformed_for_quote :
    decodeQueryBody (mkGetNodesRequest "http://puppetdb:8080"
      (String.mk ['a', quoteC, 'b'])).body = none := by
  decide

/-- C4, amended: `getNodes` issues exactly one POST request to
`{base-url}/pdb/query/v4` with header `Content-Type: application/json`, and
its body is the literal text `\x7b"query":"<query>"\x7d`, which is the
well-formed JSON document encoding the query under the key `query` whenever
the query text contains no character requiring JSON escaping (no double
quote, no backslash, no control character); the query is interpolated without
escaping. -/
theorem inventory_request_shape (base q : String)
    (h : ∀ c ∈ q.data, c ≠ quoteC ∧ c ≠ backslashC ∧ 32 ≤ c.toNat) :
    (mkGetNodesRequest base q).method = "POST" ∧
      (mkGetNodesRequest base q).url = base ++ "/pdb/query/v4" ∧
      (mkGetNodesRequest base q).headers = [("Content-Type", "application/json")] ∧
      decodeQueryBody (mkGetNodesRequest base q).body = some q :=
  ⟨rfl, rfl, rfl, decodeQueryBody_mkBody q h⟩

/-- Witness for the amended C4 at a concrete escaping-free query. -/
theorem inventory_request_shape_witness :
    (mkGetNodesRequest "http://puppetdb:8080" "facts[certname, value]").method = "POST" ∧
      (mkGetNodesRequest "http://puppetdb:8080" "facts[certname, value]").url =
        "http://puppetdb:8080" ++ "/pdb/query/v4" ∧
      (mkGetNodesRequest "http://puppetdb:8080" "facts[certname, value]").headers =
        [("Content-Type", "application/json")] ∧
      decodeQueryBody (mkGetNodesRequest "http://puppetdb:8080"
        "facts[certname, value]").body = some "facts[certname, value]" :=
  inventory_request_shape "http://puppetdb:8080" "facts[certname, value]" (by decide)

/-- C1: for every input list of node records with no exporter-URL parse
failure, the mapping loop of `getTargets` emits exactly one static target
config per (node, exporter) pair — the number of output entries equals the
total number of exporter entries across all input nodes — and every emitted
config has a `targets` sequence of length exactly 1. -/
theorem getTargets_one_config_per_pair (nodes : List Node) (configs : List StaticConfig)
    (h : mapNodes nodes = .ok configs) :
    configs.length = (nodes.map (fun n => n.exporters.length)).sum ∧
      ∀ c ∈ configs, c.targets.length = 1 := by
  refine ⟨mapNodes_length nodes configs h, fun c hc => ?_⟩
  obtain ⟨t, u, _, hshape⟩ := mapNodes_shape nodes configs h c hc
  simp [hshape]

/-- Witness for C1 at a concrete two-exporter input. -/
theorem getTargets_one_config_per_pair_witness :
    ([{ targets := ["1.2.3.4:9100"],
        labels := [("certname", "node1"), ("host", "node1"),
                   ("metrics_path", "/metrics"), ("job", "job1"), ("scheme", "http")] },
      { targets := ["1.2.3.4:9090"],
        labels := [("certname", "node1"), ("host", "node1"),
                   ("metrics_path", ""), ("job", "job2"), ("scheme", "https")] }] :
        List StaticConfig).length =
      (([{ certname := "node1",
           exporters := [("job1", "http://1.2.3.4:9100/metrics"),
                         ("job2", "https://1.2.3.4:9090")] }] : List Node).map
          (fun n => n.exporters.length)).sum ∧
    ({ targets := ["1.2.3.4:9100"],
       labels := [("certname", "node1"), ("host", "node1"),
                  ("metrics_path", "/metrics"), ("job", "job1"), ("scheme", "http")] } :
        StaticConfig).targets.length = 1 := by
  have h := getTargets_one_config_per_pair
    [{ certname := "node1",
       exporters := [("job1", "http://1.2.3.4:9100/metrics"),
                     ("job2", "https://1.2.3.4:9090")] }]
    [{ targets := ["1.2.3.4:9100"],
       labels := [("certname", "node1"), ("host", "node1"),
                  ("metrics_path", "/metrics"), ("job", "job1"), ("scheme", "http")] },
     { targets := ["1.2.3.4:9090"],
       labels := [("certname", "node1"), ("host", "node1"),
                  ("metrics_path", ""), ("job", "job2"), ("scheme", "https")] }]
    (by decide)
  exact ⟨h.1, h.2 _ (by simp)⟩

/-- C2: if any exporter URL of any input node fails to parse, the whole
mapping operation fails: `getTargets` propagates an error and produces no
rendered bytes. -/
theorem parse_failure_aborts_cycle (nodes : List Node)
    (h : ∃ n ∈ nodes, ∃ p ∈ n.exporters, ∃ e, urlParse p.2 = .error e) :
    ∃ e, getTargetsRender nodes = .error e := by
  obtain ⟨n, hn, p, hp, e, he⟩ := h
  cases hm : mapNodes nodes with
  | error e2 => exact ⟨e2, by simp [getTargetsRender, hm]⟩
  | ok configs =>
    obtain ⟨u, hu⟩ := mapNodes_parses nodes configs hm n hn p hp
    rw [he] at hu
    exact absurd hu (by simp)

/-- Witness for C2: the malformed exporter URL `::bad-url` fails the cycle. -/
theorem parse_failure_aborts_cycle_witness :
    ∃ e, getTargetsRender [{ certname := "n", exporters := [("job", "::bad-url")] }] = .error e :=
  parse_failure_aborts_cycle
    [{ certname := "n", exporters := [("job", "::bad-url")] }]
    ⟨{ certname := "n", exporters := [("job", "::bad-url")] }, by simp,
      ("job", "::bad-url"), by simp, "missing protocol scheme", by decide⟩

/-- C3: the single input node with certname `node1` and one exporter
`job1 -> http://1.2.3.4:9100/metrics` maps to exactly one static config with
target `1.2.3.4:9100` and the five documented labels. -/
theorem mapper_single_node_example :
    mapNodes [{ certname := "node1", exporters := [("job1", "http://1.2.3.4:9100/metrics")] }] =
      .ok [{ targets := ["1.2.3.4:9100"],
             labels := [("certname", "node1"), ("host", "node1"),
                        ("metrics_path", "/metrics"), ("job", "job1"), ("scheme", "http")] }] := by
  decide

/-- C5, counterexample: an exporter URL with no scheme and no authority, such
as `foo`, parses successfully in Go with an empty host, and the mapper emits
a config whose single target is the empty string — it is neither an abort
nor a dropped entry, contradicting the claim that an emitted target is always
a non-empty host string. -/
theorem mapper_emits_empty_host_target :
    urlParse "foo" = .ok { scheme := "", host := "", path := "foo" } ∧
    mapNodes [{ certname := "n", exporters := [("job", "foo")] }] =
      .ok [{ targets := [""],
             labels := [("certname", "n"), ("host", "n"),
                        ("metrics_path", "foo"), ("job", "job"), ("scheme", "")] }] := by
  decide

/-- C5, amended: for every (node, exporter) pair processed without error the
pair's own exporter URL has parsed successfully and the config emitted for
that pair has as its `targets` sequence exactly the one-element sequence
holding that URL's parsed host, which may be the empty string; only a parse
failure aborts the poll.  The configs correspond pairwise, in order, to the
flattened (certname, job, exporter-URL) triples of the input. -/
theorem emitted_target_is_parsed_host (nodes : List Node) (configs : List StaticConfig)
    (h : mapNodes nodes = .ok configs) :
    List.Forall₂ (fun (p : String × String × String) (c : StaticConfig) =>
        ∃ u, urlParse p.2.2 = .ok u ∧ c.targets = [u.host] ∧ c = buildStaticConfig p.1 p.2.1 u)
      (nodes.flatMap (fun n => n.exporters.map (fun e => (n.certname, e)))) configs := by
  induction nodes generalizing configs with
  | nil => simp [mapNodes] at h; subst h; exact List.Forall₂.nil
  | cons n rest ih =>
    simp only [mapNodes] at h
    cases he : mapExporters n.certname n.exporters with
    | error e => rw [he] at h; simp at h
    | ok cs1 =>
      rw [he] at h
      cases hr : mapNodes rest with
      | error e => rw [hr] at h; simp at h
      | ok cs2 =>
        rw [hr] at h
        simp only [Except.ok.injEq] at h
        subst h
        rw [List.flatMap_cons]
        refine List.rel_append ?_ (ih cs2 hr)
        rw [List.forall₂_map_left_iff]
        exact mapExporters_forall₂ n.certname n.exporters cs1 he

/-- Witness for the amended C5: the node1/job1 pair corresponds to its own
config, whose target is that URL's parsed host. -/
theorem emitted_target_is_parsed_host_witness :
    List.Forall₂ (fun (p : String × String × String) (c : StaticConfig) =>
        ∃ u, urlParse p.2.2 = .ok u ∧ c.targets = [u.host] ∧ c = buildStaticConfig p.1 p.2.1 u)
      [("node1", ("job1", "http://1.2.3.4:9100/metrics"))]
      [{ targets := ["1.2.3.4:9100"],
         labels := [("certname", "node1"), ("host", "node1"),
                    ("metrics_path", "/metrics"), ("job", "job1"), ("scheme", "http")] }] :=
  emitted_target_is_parsed_host
    [{ certname := "node1", exporters := [("job1", "http://1.2.3.4:9100/metrics")] }]
    [{ targets := ["1.2.3.4:9100"],
       labels := [("certname", "node1"), ("host", "node1"),
                  ("metrics_path", "/metrics"), ("job", "job1"), ("scheme", "http")] }]
    (by decide)

/-- C9: serializing the empty sequence of static target configs succeeds and
produces the well-formed empty YAML document, the empty flow sequence
followed by a newline. -/
theorem serialize_empty_sequence_ok :
    yamlMarshalStaticConfigs [] = .ok yamlEmptySeqDoc ∧ yamlEmptySeqDoc = "[]\n" :=
  ⟨rfl, rfl⟩

/-- C6: sink selection accepts exactly the four known sink names; the empty
name and every unknown name make `Setup` return an error before any cycle
runs, and every known name selects exactly one sink. -/
theorem setup_selects_exactly_known_sinks (opts : Options) :
    ((∃ s, Setup opts = .ok s) ↔ opts.name ∈ knownOutputs) ∧
      ((∃ e, Setup opts = .error e) ↔ opts.name ∉ knownOutputs) := by
  by_cases h1 : opts.name = "stdout" <;>
  by_cases h2 : opts.name = "file" <;>
  by_cases h3 : opts.name = "configmap" <;>
  by_cases h4 : opts.name = "external-services" <;>
  by_cases h5 : opts.name = "" <;>
  simp_all [Setup, knownOutputs, setupOutputFile, setupOutputK8SConfigMap,
    setupOutputK8SExternalService]

/-- Witness for C6: a known name selects a sink, an unknown name errors. -/
theorem setup_selects_exactly_known_sinks_witness :
    (∃ s, Setup { name := "stdout", filePath := "", configMapName := "",
                  nameSpace := "", objectLabels := [] } = .ok s) ∧
      (∃ e, Setup { name := "bogus", filePath := "", configMapName := "",
                    nameSpace := "", objectLabels := [] } = .error e) :=
  ⟨(setup_selects_exactly_known_sinks _).1.mpr (by decide),
    (setup_selects_exactly_known_sinks _).2.mpr (by decide)⟩

/-- C7: every configured base URL whose parsed scheme is neither `http` nor
`https` fails the startup check with a configuration error (the check runs
before any HTTP client exists, so no network call is made), every base URL
parsing to scheme `http` or `https` passes the check, and in particular the
spec's `ftp://` example is rejected. -/
theorem startup_rejects_non_http_scheme :
    (∀ rawurl u, urlParse rawurl = .ok u → u.scheme ≠ "http" → u.scheme ≠ "https" →
        ∃ e, checkPuppetdbScheme rawurl = .error e) ∧
      (∀ rawurl u, urlParse rawurl = .ok u → u.scheme = "http" ∨ u.scheme = "https" →
        checkPuppetdbScheme rawurl = .ok u) ∧
      (∃ e, checkPuppetdbScheme "ftp://puppetdb:8080" = .error e) := by
  refine ⟨?_, ?_, ⟨"ftp is not a valid http scheme", by decide⟩⟩
  · intro rawurl u hp h1 h2
    exact ⟨u.scheme ++ " is not a valid http scheme",
      by simp [checkPuppetdbScheme, hp, h1, h2]⟩
  · intro rawurl u hp hs
    simp only [checkPuppetdbScheme, hp]
    rcases hs with hs | hs <;> simp [hs]

/-- Witness for C7: the ftp base URL is rejected by the universal direction,
and the default http base URL passes the scheme check. -/
theorem startup_rejects_non_http_scheme_witness :
    (∃ e, checkPuppetdbScheme "ftp://puppetdb:8080" = .error e) ∧
      checkPuppetdbScheme "http://puppetdb:8080" =
        .ok { scheme := "http", host := "puppetdb:8080", path := "" } :=
  ⟨startup_rejects_non_http_scheme.1 "ftp://puppetdb:8080"
      { scheme := "ftp", host := "puppetdb:8080", path := "" } (by decide)
      (by decide) (by decide),
    startup_rejects_non_http_scheme.2.1 "http://puppetdb:8080"
      { scheme := "http", host := "puppetdb:8080", path := "" } (by decide) (Or.inl rfl)⟩

/-- C8: with the file sink, one poll cycle creates the destination file's
parent directory and writes to the destination file exactly the bytes the
serializer produces for the same input. -/
theorem file_sink_writes_serializer_output (file : String) (nodes : List Node)
    (fs : FileSystem) (c : String) (h : getTargetsRender nodes = .ok c) :
    ∃ fs2, runOneFileCycle file nodes fs = .ok fs2 ∧
      filepathDir file ∈ fs2.dirs ∧ readFile file fs2 = some c := by
  refine ⟨writeFile file c (mkdirAll (filepathDir file) fs), ?_, ?_, ?_⟩
  · simp [runOneFileCycle, h]
  · simp [writeFile, mkdirAll]
  · simp [readFile, writeFile]

/-- Witness for C8 at the default target path with the empty node list. -/
theorem file_sink_writes_serializer_output_witness :
    ∃ fs2, runOneFileCycle "/etc/prometheus/targets/prometheus-puppetdb/targets.yml" []
        { dirs := [], files := [] } = .ok fs2 ∧
      filepathDir "/etc/prometheus/targets/prometheus-puppetdb/targets.yml" ∈ fs2.dirs ∧
      readFile "/etc/prometheus/targets/prometheus-puppetdb/targets.yml" fs2 = some "[]\n" :=
  file_sink_writes_serializer_output "/etc/prometheus/targets/prometheus-puppetdb/targets.yml"
    [] { dirs := [], files := [] } "[]\n" (by decide)

/-- C10, counterexample: `encoding/json` unmarshals the top-level literal
`null` into a slice by leaving it nil with no error, so a response whose
body is `null` — not a JSON array — is returned by `getNodes` as a
successful (empty) node list, refuting the claimed "succeeds only if the
body is a JSON array". -/
theorem getNodes_succeeds_on_null_body :
    getNodesFromResponse { statusCode := 200, body := "null" } = .ok [] ∧
      jsonParse "null" = some JsonValue.null :=
  ⟨by decide, rfl⟩

/-- C10, amended: `getNodes` never inspects the HTTP status code — the
result depends only on the body, and success holds exactly when the body
unmarshals into the node slice, that is, as a JSON array of node records or
as the JSON literal `null` (which decodes as the empty node list); so a 500
response with an array body succeeds, a 204 response with body `null`
succeeds with no nodes, and a 200 response whose body is neither fails. -/
theorem getNodes_ignores_status_code :
    (∀ s1 s2 b, getNodesFromResponse { statusCode := s1, body := b } =
        getNodesFromResponse { statusCode := s2, body := b }) ∧
      (∀ r : HttpResponse, (∃ ns, getNodesFromResponse r = .ok ns) ↔
        (decodeNodes r.body).isSome) ∧
      getNodesFromResponse { statusCode := 500, body := "[]" } = .ok [] ∧
      getNodesFromResponse { statusCode := 204, body := "null" } = .ok [] ∧
      (∃ e, getNodesFromResponse { statusCode := 200, body := "true" } = .error e) := by
  refine ⟨fun s1 s2 b => rfl, fun r => ?_, by decide, by decide,
    ⟨"json unmarshal error", by decide⟩⟩
  unfold getNodesFromResponse
  cases decodeNodes r.body <;> simp

end PromPdb
